import Mathlib

/-!
Verification of the Bw-tree building blocks in `src/bwtree/bwtree.h`
(namespace `wangziqi2013::index_building_block::bwtree`).

The C++ classes are shallowly embedded: each class becomes a structure, each
member function a Lean function on that structure.  Machine pointers that can
be null are modelled as `Option`; memory written by a call is threaded
explicitly where a claim is about mutation.  Fixed-size arrays become lists
whose length matches the node's `size` field (the allocator `Get` creates both
arrays with exactly `size` elements, so theorems carry that fact as a
well-formedness hypothesis).
-/

namespace BwTreeModel

/-- `enum class NodeType` of the source: the twelve node kinds. -/
inductive NodeType where
  | InnerBase
  | InnerInsert
  | InnerDelete
  | InnerSplit
  | InnerRemove
  | InnerMerge
  | LeafBase
  | LeafInsert
  | LeafDelete
  | LeafSplit
  | LeafRemove
  | LeafMerge
deriving DecidableEq, Repr

/-- `class BoundKey`: a key together with an infinity flag (`key`, `inf`). -/
structure BoundKey (K : Type) where
  key : K
  inf : Bool
deriving DecidableEq, Repr

/-- The header of `class NodeBase`: type tag, height in the chain, logical
size, and the two bound keys.  The source stores pointers to the bound keys;
the bounds are embedded by value. -/
structure NodeBase (K : Type) where
  type : NodeType
  height : Nat
  size : Nat
  lowKey : BoundKey K
  highKey : BoundKey K
deriving DecidableEq, Repr

variable {K V : Type}

/-- `NodeBase::KeyLargerThanNode`: `high_key_p->IsInf() == false && *high_key_p <= key`.
The `&&` short-circuits, so the comparison (which asserts `!inf`) only runs on
a finite bound. -/
def KeyLargerThanNode [LinearOrder K] (n : NodeBase K) (key : K) : Bool :=
  n.highKey.inf == false && decide (n.highKey.key ≤ key)

/-- `NodeBase::KeySmallerThanNode`: `low_key_p->IsInf() == false && *low_key_p > key`. -/
def KeySmallerThanNode [LinearOrder K] (n : NodeBase K) (key : K) : Bool :=
  n.lowKey.inf == false && decide (n.lowKey.key > key)

/-- `NodeBase::KeyInNode`: `KeyLargerThanNode(key) == false && KeySmallerThanNode(key) == false`. -/
def KeyInNode [LinearOrder K] (n : NodeBase K) (key : K) : Bool :=
  KeyLargerThanNode n key == false && KeySmallerThanNode n key == false

/-!
`class DeltaNode<KeyType, T1 .. T6>`: the header, the chain's next pointer and
the six positional payload slots `t1 .. t6`.  The next pointer is embedded as
an abstract address (`Nat`); no claim inspects the node it points to.
-/

structure DeltaNode (K T1 T2 T3 T4 T5 T6 : Type) where
  base : NodeBase K
  nextNode : Nat
  t1 : T1
  t2 : T2
  t3 : T3
  t4 : T4
  t5 : T5
  t6 : T6

/-- `GetDeleteKey()` returns `t1`. -/
def GetDeleteKey (d : DeltaNode K T1 T2 T3 T4 T5 T6) : T1 := d.t1

/-- `GetDeleteNodeID()` returns `t2`. -/
def GetDeleteNodeID (d : DeltaNode K T1 T2 T3 T4 T5 T6) : T2 := d.t2

/-- `GetNextKey()` returns `t3`. -/
def GetNextKey (d : DeltaNode K T1 T2 T3 T4 T5 T6) : T3 := d.t3

/-- `GetNextNodeID()` returns `t4`. -/
def GetNextNodeID (d : DeltaNode K T1 T2 T3 T4 T5 T6) : T4 := d.t4

/-- `GetPrevKey()` returns `t5`. -/
def GetPrevKey (d : DeltaNode K T1 T2 T3 T4 T5 T6) : T5 := d.t5

/-- `GetPrevNodeID()` returns `t6`. -/
def GetPrevNodeID (d : DeltaNode K T1 T2 T3 T4 T5 T6) : T6 := d.t6

/-- `INNER_DELETE_TYPE(KeyType, NodeIDType)` =
`DeltaNode<KeyType, KeyType, NodeIDType, KeyType, NodeIDType, KeyType, NodeIDType>`. -/
def InnerDeleteType (K NID : Type) := DeltaNode K K NID K NID K NID

/-!
`class DefaultBaseNode<KeyType, ValueType, DeltaChainType>`: header fields plus
the two arrays `key_begin[0 .. size)` and the value array that follows it.
`Get` allocates both arrays with exactly `size` elements, always with
`height = 0`, and requires an inner or leaf base type tag.
-/

structure DefaultBaseNode (K V : Type) where
  type : NodeType
  height : Nat
  size : Nat
  lowKey : BoundKey K
  highKey : BoundKey K
  keys : List K
  values : List V
deriving DecidableEq, Repr

instance [Inhabited K] : Inhabited (DefaultBaseNode K V) :=
  ⟨{ type := NodeType.LeafBase, height := 0, size := 0,
     lowKey := ⟨default, true⟩, highKey := ⟨default, true⟩,
     keys := [], values := [] }⟩

/-- The inherited `NodeBase` header of a base node. -/
def DefaultBaseNode.hdr (n : DefaultBaseNode K V) : NodeBase K :=
  { type := n.type, height := n.height, size := n.size,
    lowKey := n.lowKey, highKey := n.highKey }

/-- `DefaultBaseNode::KeyAt(index)`: `KeyBegin()[index]`.  An out-of-bounds
read is undefined in the source; the model returns `default` there. -/
def KeyAt [Inhabited K] (n : DefaultBaseNode K V) (index : Nat) : K :=
  n.keys.getD index default

/-- `DefaultBaseNode::ValueAt(index)`: `ValueBegin()[index]`. -/
def ValueAt [Inhabited V] (n : DefaultBaseNode K V) (index : Nat) : V :=
  n.values.getD index default

/-- Models `std::upper_bound(first, last, key)` by its contract: the offset of
the first element of the range that is strictly greater than `key`, or the
length of the range when no element is (the range must be sorted, as the
standard requires). -/
def upperBound [LinearOrder K] (l : List K) (key : K) : Nat :=
  l.findIdx fun x => decide (key < x)

/-- `DefaultBaseNode::Search(key)`:
`(std::upper_bound(KeyBegin() + 1, KeyEnd(), key) - KeyBegin()) - 1`;
the searched range starts at index 1, so the pointer difference is one more
than the offset inside the dropped list. -/
def Search [LinearOrder K] (n : DefaultBaseNode K V) (key : K) : Nat :=
  1 + upperBound (n.keys.drop 1) key - 1

/-- `DefaultBaseNode::PointSearch(key)`:
`index = Search(key); return KeyAt(index) == key ? index : -1`. -/
def PointSearch [LinearOrder K] [Inhabited K] (n : DefaultBaseNode K V) (key : K) : Int :=
  let index := Search n key
  if KeyAt n index = key then (index : Int) else -1

/-- Models `std::copy(arr + lo, arr + hi, out)`: the elements of `l` at
indices `[lo, hi)`. -/
def copyRange (l : List α) (lo hi : Nat) : List α :=
  (l.drop lo).take (hi - lo)

/-- `DefaultBaseNode::Split()`: reads `old_size`, sets `pivot = old_size / 2`
and `new_size = old_size - pivot`, allocates via `Get` a node with the same
type tag, height 0, size `new_size`, low key `{KeyAt(pivot), false}` and the
current high key, then copies keys and values `[pivot, old_size)` into it. -/
def Split [LinearOrder K] [Inhabited K] (n : DefaultBaseNode K V) : DefaultBaseNode K V :=
  let oldSize := n.size
  let pivot := oldSize / 2
  let newSize := oldSize - pivot
  { type := n.type, height := 0, size := newSize,
    lowKey := ⟨KeyAt n pivot, false⟩, highKey := n.highKey,
    keys := copyRange n.keys pivot oldSize,
    values := copyRange n.values pivot oldSize }

/-- The memory effect of `Split()` on a heap of allocated base nodes: the
receiver is `heap[i]`; the body reads the receiver, allocates one fresh node
with `Get` (placement new on a fresh block, modelled as appending to the heap)
and writes only into that fresh node via the two `std::copy` calls.  Returns
the heap after the call and the index of the new node. -/
def SplitOnHeap [LinearOrder K] [Inhabited K] (heap : List (DefaultBaseNode K V)) (i : Nat) :
    List (DefaultBaseNode K V) × Nat :=
  (heap ++ [Split (heap.getD i default)], heap.length)

/-!
`class DefaultMappingTable<BaseNodeType, TABLE_SIZE>`: a fixed array of atomic
node pointers plus the `next_slot` counter.  A pointer is `Option P`
(`none` = null); the array is a list whose length plays the role of
`TABLE_SIZE`.  The claims are about sequential executions, so each operation
is a plain state transformer.
-/

structure DefaultMappingTable (P : Type) where
  slots : List (Option P)
  nextSlot : Nat
deriving DecidableEq, Repr

/-- `DefaultMappingTable::AllocateNodeID(node_p)`:
`slot = next_slot.fetch_add(1); assert(slot < TABLE_SIZE); mapping_table[slot] = node_p; return slot`.
Returns the old counter value and the updated table. -/
def AllocateNodeID (t : DefaultMappingTable P) (node : Option P) :
    Nat × DefaultMappingTable P :=
  let slot := t.nextSlot
  (slot, { slots := t.slots.set slot node, nextSlot := slot + 1 })

/-- `DefaultMappingTable::At(node_id)`: `mapping_table[node_id].load()`. -/
def At (t : DefaultMappingTable P) (nid : Nat) : Option P :=
  t.slots.getD nid none

/-- `DefaultMappingTable::CAS(node_id, old_value, new_value)`:
`mapping_table[node_id].compare_exchange_strong(old_value, new_value)` — if the
slot holds `old_value` it is set to `new_value` and `true` is returned,
otherwise the slot is untouched and `false` is returned. -/
def CAS [DecidableEq P] (t : DefaultMappingTable P) (nid : Nat)
    (oldValue newValue : Option P) : Bool × DefaultMappingTable P :=
  if t.slots.getD nid none = oldValue then
    (true, { t with slots := t.slots.set nid newValue })
  else
    (false, t)

/-- One call against the mapping table (`Reset` excluded, as in the claims). -/
inductive TableOp (P : Type) where
  | alloc (node : Option P)
  | read (nid : Nat)
  | cas (nid : Nat) (oldValue newValue : Option P)
deriving DecidableEq, Repr

/-- The state after one mapping-table call: `AllocateNodeID`, `At` (a pure
load) or `CAS`. -/
def applyOp [DecidableEq P] (t : DefaultMappingTable P) : TableOp P → DefaultMappingTable P
  | TableOp.alloc node => (AllocateNodeID t node).2
  | TableOp.read _ => t
  | TableOp.cas nid oldValue newValue => (CAS t nid oldValue newValue).2

/-- The state after a sequence of mapping-table calls. -/
def applyOps [DecidableEq P] (t : DefaultMappingTable P) (ops : List (TableOp P)) :
    DefaultMappingTable P :=
  ops.foldl applyOp t

/-- Whether an operation is an `AllocateNodeID` call. -/
def TableOp.isAlloc : TableOp P → Bool
  | TableOp.alloc _ => true
  | _ => false

/-- An operation as restricted by the non-null invariant: allocations and CAS
installs only ever store non-null pointers. -/
def TableOp.storesNonNull : TableOp P → Prop
  | TableOp.alloc node => node ≠ none
  | TableOp.read _ => True
  | TableOp.cas _ _ newValue => newValue ≠ none

instance [DecidableEq P] : DecidablePred (TableOp.storesNonNull (P := P)) := by
  intro op
  cases op with
  | alloc node => exact instDecidableNot
  | read nid => exact instDecidableTrue
  | cas nid o nv => exact instDecidableNot

/-!
`class DeltaChainTraverser`: the traversal loop of `Traverse`.  The handler is
abstract (a template parameter in the source): a state type `H`, the combined
per-kind `Handle*` dispatch, `Finished()`, `GetNext()` and `Init()`.  The node
type `N` is likewise abstract, with its `GetType()` passed as a function.  The
debug `assert(handler_p->Finished() == true)` after the base and merge cases
is modelled as a distinguished result; the loop itself gets fuel, with a
distinguished result for running out.
-/

structure TraverseHandler (N H : Type) where
  init : N → H
  handle : N → H → H
  finished : H → Bool
  next : H → N

inductive TraverseResult (H : Type) where
  | done (h : H)
  | assertFailed
  | fuelOut
deriving DecidableEq, Repr

/-- The node kinds whose `case` in `Traverse` is followed by
`assert(handler_p->Finished() == true)`: the two base kinds and the two merge
kinds. -/
def mustFinish : NodeType → Bool
  | NodeType.LeafBase => true
  | NodeType.InnerBase => true
  | NodeType.LeafMerge => true
  | NodeType.InnerMerge => true
  | _ => false

/-- The `while(true)` loop of `DeltaChainTraverser::Traverse`: dispatch on the
node's type, check the post-dispatch assertion for base and merge kinds, stop
when the handler is finished, otherwise continue at `handler_p->GetNext()`. -/
def traverseLoop (typeOf : N → NodeType) (hd : TraverseHandler N H) :
    Nat → N → H → TraverseResult H
  | 0, _, _ => TraverseResult.fuelOut
  | fuel + 1, node, h =>
    let h2 := hd.handle node h
    if mustFinish (typeOf node) && !hd.finished h2 then
      TraverseResult.assertFailed
    else if hd.finished h2 then
      TraverseResult.done h2
    else
      traverseLoop typeOf hd fuel (hd.next h2) h2

/-- `DeltaChainTraverser::Traverse(node_p, handler_p)`: initialize the handler
on the head node, then run the loop. -/
def Traverse (typeOf : N → NodeType) (hd : TraverseHandler N H) (fuel : Nat)
    (node : N) : TraverseResult H :=
  traverseLoop typeOf hd fuel node (hd.init node)

/-! ### Shared helper lemmas about list writes -/

theorem getD_set_self (l : List α) (i : Nat) (a d : α) (h : i < l.length) :
    (l.set i a).getD i d = a := by
  simp [List.getD_eq_getElem?_getD, List.getElem?_set, h]

theorem getD_set_ne (l : List α) {i j : Nat} (a d : α) (h : i ≠ j) :
    (l.set i a).getD j d = l.getD j d := by
  simp [List.getD_eq_getElem?_getD, List.getElem?_set, h]

theorem getD_set_or (l : List α) (i j : Nat) (a d : α) :
    (l.set i a).getD j d = a ∨ (l.set i a).getD j d = l.getD j d := by
  by_cases hij : i = j
  · subst hij
    by_cases hl : i < l.length
    · exact Or.inl (getD_set_self l i a d hl)
    · exact Or.inr (by rw [List.set_eq_of_length_le (Nat.le_of_not_lt hl)])
  · exact Or.inr (getD_set_ne l a d hij)

/-! ### C10: the node's key range is the half-open interval `[low, high)` -/

/-- **C10**: `KeyInNode(key)` returns true exactly when the low bound is
infinite or `low ≤ key` and the high bound is infinite or `key < high`; in
particular a key equal to a finite high bound is outside the node, and a key
equal to a finite low bound is inside whenever the range extends past it, so
the node's range is half-open. -/
theorem c10_keyInNode_half_open {K : Type} [LinearOrder K] (n : NodeBase K) (key : K) :
    (KeyInNode n key = true ↔
      ((n.lowKey.inf = true ∨ n.lowKey.key ≤ key) ∧
       (n.highKey.inf = true ∨ key < n.highKey.key))) ∧
    (n.highKey.inf = false → KeyInNode n n.highKey.key = false) ∧
    (n.lowKey.inf = false →
      (n.highKey.inf = true ∨ n.lowKey.key < n.highKey.key) →
      KeyInNode n n.lowKey.key = true) := by
  have expand : ∀ k : K, KeyInNode n k = true ↔
      ((n.lowKey.inf = true ∨ n.lowKey.key ≤ k) ∧
       (n.highKey.inf = true ∨ k < n.highKey.key)) := by
    intro k
    cases hli : n.lowKey.inf <;> cases hhi : n.highKey.inf <;>
      simp [KeyInNode, KeyLargerThanNode, KeySmallerThanNode, hli, hhi,
        not_le, not_lt, and_comm]
  refine ⟨expand key, ?_, ?_⟩
  · intro hfin
    rcases hb : KeyInNode n n.highKey.key with _ | _
    · rfl
    · exfalso
      rcases ((expand n.highKey.key).mp hb).2 with hinf | hlt
      · rw [hfin] at hinf; cases hinf
      · exact lt_irrefl _ hlt
  · intro hfin hroom
    exact (expand n.lowKey.key).mpr ⟨Or.inr le_rfl, hroom⟩

/-- Concrete node used to witness `c10_keyInNode_half_open`: finite bounds
`[0, 10)` over `Int`. -/
def nBoundEx : NodeBase Int :=
  { type := NodeType.LeafBase, height := 0, size := 2,
    lowKey := ⟨0, false⟩, highKey := ⟨10, false⟩ }

/-- Witness for C10: on the concrete node with range `[0, 10)` the high bound
itself is outside and the low bound itself is inside. -/
theorem c10_witness :
    KeyInNode nBoundEx (10 : Int) = false ∧ KeyInNode nBoundEx (0 : Int) = true :=
  ⟨(c10_keyInNode_half_open nBoundEx (10 : Int)).2.1 rfl,
   (c10_keyInNode_half_open nBoundEx (0 : Int)).2.2 rfl (Or.inr (by decide))⟩

/-! ### C3: payload slot order of the InnerDelete delta -/

/-- Concrete `InnerDelete` delta with pairwise distinct payload slots. -/
def innerDeleteEx : InnerDeleteType Nat Nat :=
  { base := { type := NodeType.InnerDelete, height := 1, size := 3,
              lowKey := ⟨0, true⟩, highKey := ⟨0, true⟩ },
    nextNode := 0,
    t1 := 7, t2 := 70, t3 := 8, t4 := 80, t5 := 9, t6 := 90 }

/-- **C3 counterexample**: on a concrete `InnerDelete` delta the accessor for
the preceding separator (`GetPrevKey`) does not return the third payload slot
and the accessor for the next separator (`GetNextKey`) does not return the
fifth: the source wires `GetNextKey` to `t3` and `GetPrevKey` to `t5`. -/
theorem c3_slot_order_counterexample :
    ¬ (GetPrevKey innerDeleteEx = innerDeleteEx.t3 ∧
       GetNextKey innerDeleteEx = innerDeleteEx.t5) := by
  decide

/-- **C3 (amended)**: the six payload slots of an `InnerDelete` delta hold, in
positional order, the removed separator key, the removed child NID, the next
separator key, the next child NID, the preceding separator key, and the
preceding child NID; the accessor for the preceding separator returns the
fifth payload slot and the accessor for the next separator returns the
third. -/
theorem c3_innerDelete_slots (K NID : Type) (d : InnerDeleteType K NID) :
    GetDeleteKey d = d.t1 ∧ GetDeleteNodeID d = d.t2 ∧
    GetNextKey d = d.t3 ∧ GetNextNodeID d = d.t4 ∧
    GetPrevKey d = d.t5 ∧ GetPrevNodeID d = d.t6 :=
  ⟨rfl, rfl, rfl, rfl, rfl, rfl⟩

/-! ### C5: CAS succeeds exactly on an expected slot value -/

/-- **C5**: for every node ID inside the table, `CAS(nid, old, new)` returns
true and installs `new` exactly when the slot currently holds `old`; when it
returns false the slot's content is unchanged. -/
theorem c5_cas_spec {P : Type} [DecidableEq P] (t : DefaultMappingTable P)
    (nid : Nat) (oldValue newValue : Option P) (h : nid < t.slots.length) :
    (((CAS t nid oldValue newValue).1 = true ∧
      At (CAS t nid oldValue newValue).2 nid = newValue) ↔ At t nid = oldValue) ∧
    ((CAS t nid oldValue newValue).1 = false →
      At (CAS t nid oldValue newValue).2 nid = At t nid) := by
  have hCAS : CAS t nid oldValue newValue =
      if t.slots.getD nid none = oldValue then
        (true, { t with slots := t.slots.set nid newValue })
      else (false, t) := rfl
  by_cases hc : t.slots.getD nid none = oldValue
  · rw [hCAS, if_pos hc]
    refine ⟨⟨fun _ => hc, fun _ => ⟨rfl, ?_⟩⟩, fun hfalse => Bool.noConfusion hfalse⟩
    show (t.slots.set nid newValue).getD nid none = newValue
    exact getD_set_self _ _ _ _ h
  · rw [hCAS, if_neg hc]
    exact ⟨⟨fun hy => Bool.noConfusion hy.1, fun hr => (hc hr).elim⟩, fun _ => rfl⟩

/-- Concrete mapping table used to witness `c5_cas_spec`. -/
def mtCasEx : DefaultMappingTable Nat := ⟨[some 5, none], 2⟩

/-- Witness for C5 at a concrete table, slot and values. -/
theorem c5_witness :
    (((CAS mtCasEx 0 (some 5) (some 6)).1 = true ∧
      At (CAS mtCasEx 0 (some 5) (some 6)).2 0 = some 6) ↔ At mtCasEx 0 = some 5) ∧
    ((CAS mtCasEx 0 (some 5) (some 6)).1 = false →
      At (CAS mtCasEx 0 (some 5) (some 6)).2 0 = At mtCasEx 0) :=
  c5_cas_spec mtCasEx 0 (some 5) (some 6) (by decide)

/-! ### C4: sequential NID allocation is dense -/

theorem applyOps_slots_length {P : Type} [DecidableEq P] (ops : List (TableOp P))
    (t : DefaultMappingTable P) :
    (applyOps t ops).slots.length = t.slots.length := by
  induction ops generalizing t with
  | nil => rfl
  | cons op rest ih =>
    have h1 : applyOps t (op :: rest) = applyOps (applyOp t op) rest := rfl
    rw [h1, ih]
    cases op with
    | alloc node => simp [applyOp, AllocateNodeID]
    | read nid => rfl
    | cas nid oldValue newValue =>
      by_cases hc : t.slots.getD nid none = oldValue
      · show (CAS t nid oldValue newValue).2.slots.length = t.slots.length
        rw [CAS, if_pos hc]
        exact List.length_set ..
      · show (CAS t nid oldValue newValue).2.slots.length = t.slots.length
        rw [CAS, if_neg hc]

theorem applyOps_nextSlot {P : Type} [DecidableEq P] (ops : List (TableOp P))
    (t : DefaultMappingTable P) :
    (applyOps t ops).nextSlot = t.nextSlot + ops.countP TableOp.isAlloc := by
  induction ops generalizing t with
  | nil => rfl
  | cons op rest ih =>
    have h1 : applyOps t (op :: rest) = applyOps (applyOp t op) rest := rfl
    rw [h1, ih, List.countP_cons]
    cases op with
    | alloc node =>
      simp [applyOp, AllocateNodeID, TableOp.isAlloc]
      omega
    | read nid => simp [applyOp, TableOp.isAlloc]
    | cas nid oldValue newValue =>
      have h2 : (applyOp t (TableOp.cas nid oldValue newValue)).nextSlot = t.nextSlot := by
        show (CAS t nid oldValue newValue).2.nextSlot = t.nextSlot
        by_cases hc : t.slots.getD nid none = oldValue
        · rw [CAS, if_pos hc]
        · rw [CAS, if_neg hc]
      rw [h2]
      simp [TableOp.isAlloc]

/-- **C4**: in a sequential execution whose prior calls contain exactly `n`
allocations (`n < TABLE_SIZE`), starting from a freshly constructed or reset
table, the next `AllocateNodeID(node_p)` call returns NID `n` and afterwards
`At(n)` returns `node_p`. -/
theorem c4_allocate_sequential {P : Type} [DecidableEq P]
    (t0 : DefaultMappingTable P) (ops : List (TableOp P)) (node : Option P) (n : Nat)
    (hstart : t0.nextSlot = 0)
    (hcount : ops.countP TableOp.isAlloc = n)
    (hn : n < t0.slots.length) :
    (AllocateNodeID (applyOps t0 ops) node).1 = n ∧
    At (AllocateNodeID (applyOps t0 ops) node).2 n = node := by
  have hns : (applyOps t0 ops).nextSlot = n := by
    rw [applyOps_nextSlot, hstart, hcount, Nat.zero_add]
  have hlen : (applyOps t0 ops).slots.length = t0.slots.length :=
    applyOps_slots_length ops t0
  refine ⟨hns, ?_⟩
  show ((applyOps t0 ops).slots.set (applyOps t0 ops).nextSlot node).getD n none = node
  rw [hns]
  exact getD_set_self _ _ _ _ (by rw [hlen]; exact hn)

/-- Concrete mapping table (three empty slots, fresh counter) for the C4
witness. -/
def mtAllocEx : DefaultMappingTable Nat := ⟨[none, none, none], 0⟩

/-- Concrete prior call sequence for the C4 witness: one allocation, one load,
one CAS. -/
def opsAllocEx : List (TableOp Nat) :=
  [TableOp.alloc (some 1), TableOp.read 0, TableOp.cas 0 (some 1) (some 2)]

/-- Witness for C4: after one prior allocation the next `AllocateNodeID`
returns NID 1 and `At 1` yields the stored node. -/
theorem c4_witness :
    (AllocateNodeID (applyOps mtAllocEx opsAllocEx) (some 9)).1 = 1 ∧
    At (AllocateNodeID (applyOps mtAllocEx opsAllocEx) (some 9)).2 1 = some 9 :=
  c4_allocate_sequential mtAllocEx opsAllocEx (some 9) 1 rfl (by decide) (by decide)

/-! ### C9: non-null slots stay non-null -/

/-- Concrete one-slot mapping table for the C9 counterexample. -/
def mtNullEx : DefaultMappingTable Nat := ⟨[none], 0⟩

/-- **C9 counterexample**: a sequence made only of the operations the claim
ranges over (an `AllocateNodeID` with a non-null node followed by a `CAS`)
drives slot 0 from a non-null pointer back to null, because `CAS` accepts a
null new value; so non-nullness is not preserved by every such sequence. -/
theorem c9_nonnull_counterexample :
    At (applyOps mtNullEx [TableOp.alloc (some 1)]) 0 ≠ none ∧
    At (applyOps mtNullEx [TableOp.alloc (some 1), TableOp.cas 0 (some 1) none]) 0 = none := by
  decide

theorem applyOps_nonnull_aux {P : Type} [DecidableEq P] :
    ∀ (ops : List (TableOp P)) (t0 : DefaultMappingTable P),
    (∀ op ∈ ops, op.storesNonNull) →
    ∀ nid, At t0 nid ≠ none → At (applyOps t0 ops) nid ≠ none := by
  intro ops
  induction ops with
  | nil => intro t0 _ nid h; exact h
  | cons op rest ih =>
    intro t0 hgood nid h
    have hop : op.storesNonNull := hgood op (List.mem_cons_self op rest)
    have hrest : ∀ op2 ∈ rest, op2.storesNonNull :=
      fun op2 hmem => hgood op2 (List.mem_cons_of_mem op hmem)
    have hstep : At (applyOp t0 op) nid ≠ none := by
      cases op with
      | alloc node =>
        show (t0.slots.set t0.nextSlot node).getD nid none ≠ none
        rcases getD_set_or t0.slots t0.nextSlot nid node none with heq | heq
        · rw [heq]; exact hop
        · rw [heq]; exact h
      | read nid2 => exact h
      | cas nid2 oldValue newValue =>
        show (CAS t0 nid2 oldValue newValue).2.slots.getD nid none ≠ none
        by_cases hc : t0.slots.getD nid2 none = oldValue
        · rw [CAS, if_pos hc]
          rcases getD_set_or t0.slots nid2 nid newValue none with heq | heq
          · rw [heq]; exact hop
          · rw [heq]; exact h
        · rw [CAS, if_neg hc]; exact h
    exact ih (applyOp t0 op) hrest nid hstep

/-- **C9 (amended)**: for every sequence of mapping-table operations without
`Reset` in which `AllocateNodeID` is called with a non-null node and `CAS`
with a non-null new value, every slot holding a non-null pointer continues to
hold a non-null pointer after each subsequent operation; and `At` never
changes the table, so `AllocateNodeID` and `CAS` are the only operations that
change a slot's content. -/
theorem c9_nonnull_invariant {P : Type} [DecidableEq P] (ops : List (TableOp P))
    (t0 : DefaultMappingTable P) (hgood : ∀ op ∈ ops, op.storesNonNull) :
    (∀ nid, At t0 nid ≠ none → At (applyOps t0 ops) nid ≠ none) ∧
    (∀ (t : DefaultMappingTable P) (nid : Nat), applyOp t (TableOp.read nid) = t) :=
  ⟨applyOps_nonnull_aux ops t0 hgood, fun _ _ => rfl⟩

/-- Concrete table and operation sequence for the C9 witness. -/
def mtNonNullEx : DefaultMappingTable Nat := ⟨[some 3, none], 1⟩

/-- Operation sequence for the C9 witness: all stores are non-null. -/
def opsNonNullEx : List (TableOp Nat) :=
  [TableOp.alloc (some 4), TableOp.read 0, TableOp.cas 0 (some 3) (some 5)]

/-- Witness for the amended C9 on a concrete table whose slot 0 is non-null. -/
theorem c9_witness : At (applyOps mtNonNullEx opsNonNullEx) 0 ≠ none :=
  (c9_nonnull_invariant opsNonNullEx mtNonNullEx (by decide)).1 0 (by decide)

/-! ### C7: the traversal loop's termination contract -/

/-- **C7**: after dispatching a node of one of the four kinds `LeafBase`,
`InnerBase`, `LeafMerge`, `InnerMerge`, the traverser's assertion requires the
handler to be finished (the loop fails the assertion when it is not); after
dispatching any other kind with the handler still unfinished, the traversal
continues at the node the handler's `GetNext()` returns. -/
theorem c7_traverse_contract {N H : Type} (typeOf : N → NodeType)
    (hd : TraverseHandler N H) (fuel : Nat) (node : N) (h : H) :
    (mustFinish (typeOf node) = true → hd.finished (hd.handle node h) = false →
      traverseLoop typeOf hd (fuel + 1) node h = TraverseResult.assertFailed) ∧
    (mustFinish (typeOf node) = false → hd.finished (hd.handle node h) = false →
      traverseLoop typeOf hd (fuel + 1) node h =
        traverseLoop typeOf hd fuel (hd.next (hd.handle node h)) (hd.handle node h)) := by
  constructor
  · intro hm hf
    simp [traverseLoop, hm, hf]
  · intro hm hf
    simp [traverseLoop, hm, hf]

/-- Concrete handler for the C7 witness: the state is the finished flag, the
dispatch never sets it, and `GetNext` always yields a `LeafInsert` node. -/
def travHandlerEx : TraverseHandler NodeType Bool :=
  { init := fun _ => false,
    handle := fun _ _ => false,
    finished := fun b => b,
    next := fun _ => NodeType.LeafInsert }

/-- Witness for C7: with the node kind itself as the node type, dispatching a
`LeafBase` with an unfinished handler fails the assertion, and dispatching a
`LeafInsert` continues at the handler's next node. -/
theorem c7_witness :
    traverseLoop id travHandlerEx 1 NodeType.LeafBase false = TraverseResult.assertFailed ∧
    traverseLoop id travHandlerEx 1 NodeType.LeafInsert false =
      traverseLoop id travHandlerEx 0
        (travHandlerEx.next (travHandlerEx.handle NodeType.LeafInsert false))
        (travHandlerEx.handle NodeType.LeafInsert false) :=
  ⟨(c7_traverse_contract id travHandlerEx 0 NodeType.LeafBase false).1 rfl rfl,
   (c7_traverse_contract id travHandlerEx 0 NodeType.LeafInsert false).2 rfl rfl⟩

/-! ### C2 and C8: splitting a base node -/

/-- **C2**: for a base node of size greater than 1, `Split()` returns a node
holding exactly the key/value pairs at indices `[pivot, size)` of the original
in order (`pivot = size / 2`), with size `size - pivot`, a concrete low bound
`KeyAt(pivot)`, the original high bound, the original type tag, and height
0. -/
theorem c2_split_new_node {K V : Type} [LinearOrder K] [Inhabited K] [Inhabited V]
    (n : DefaultBaseNode K V)
    (hwk : n.keys.length = n.size) (hwv : n.values.length = n.size)
    (_hsz : 1 < n.size) :
    (Split n).size = n.size - n.size / 2 ∧
    (Split n).keys = n.keys.drop (n.size / 2) ∧
    (Split n).values = n.values.drop (n.size / 2) ∧
    (∀ j, j < (Split n).size →
      KeyAt (Split n) j = KeyAt n (n.size / 2 + j) ∧
      ValueAt (Split n) j = ValueAt n (n.size / 2 + j)) ∧
    (Split n).lowKey = ⟨KeyAt n (n.size / 2), false⟩ ∧
    (Split n).highKey = n.highKey ∧
    (Split n).type = n.type ∧
    (Split n).height = 0 := by
  have hk : (Split n).keys = n.keys.drop (n.size / 2) := by
    show copyRange n.keys (n.size / 2) n.size = n.keys.drop (n.size / 2)
    rw [copyRange]
    exact List.take_of_length_le (le_of_eq (by rw [List.length_drop, hwk]))
  have hv : (Split n).values = n.values.drop (n.size / 2) := by
    show copyRange n.values (n.size / 2) n.size = n.values.drop (n.size / 2)
    rw [copyRange]
    exact List.take_of_length_le (le_of_eq (by rw [List.length_drop, hwv]))
  refine ⟨rfl, hk, hv, ?_, rfl, rfl, rfl, rfl⟩
  intro j hj
  have hjs : j < n.size - n.size / 2 := hj
  constructor
  · have hb1 : j < (n.keys.drop (n.size / 2)).length := by
      rw [List.length_drop, hwk]; exact hjs
    have hb2 : n.size / 2 + j < n.keys.length := by
      rw [hwk]; omega
    rw [KeyAt, KeyAt, hk, List.getD_eq_getElem _ _ hb1, List.getD_eq_getElem _ _ hb2,
      List.getElem_drop]
  · have hb1 : j < (n.values.drop (n.size / 2)).length := by
      rw [List.length_drop, hwv]; exact hjs
    have hb2 : n.size / 2 + j < n.values.length := by
      rw [hwv]; omega
    rw [ValueAt, ValueAt, hv, List.getD_eq_getElem _ _ hb1, List.getD_eq_getElem _ _ hb2,
      List.getElem_drop]

/-- Concrete base node of size 3 for the split witnesses. -/
def nSplitEx : DefaultBaseNode Int Int :=
  { type := NodeType.LeafBase, height := 0, size := 3,
    lowKey := ⟨1, false⟩, highKey := ⟨9, false⟩,
    keys := [1, 3, 5], values := [10, 20, 30] }

/-- Witness for C2 on the concrete size-3 node. -/
theorem c2_witness :
    (Split nSplitEx).size = nSplitEx.size - nSplitEx.size / 2 ∧
    (Split nSplitEx).keys = nSplitEx.keys.drop (nSplitEx.size / 2) ∧
    (Split nSplitEx).highKey = nSplitEx.highKey ∧
    (Split nSplitEx).height = 0 :=
  ⟨(c2_split_new_node nSplitEx rfl rfl (by decide)).1,
   (c2_split_new_node nSplitEx rfl rfl (by decide)).2.1,
   (c2_split_new_node nSplitEx rfl rfl (by decide)).2.2.2.2.2.1,
   (c2_split_new_node nSplitEx rfl rfl (by decide)).2.2.2.2.2.2.2⟩

/-- **C8**: `Split()` leaves the receiver untouched: on a heap holding the
receiver at index `i`, the call only appends the freshly allocated node, and
the receiver's size, type, height, bounds and every key and value at indices
`[0, size)` read the same afterwards. -/
theorem c8_split_frame {K V : Type} [LinearOrder K] [Inhabited K] [Inhabited V]
    (heap : List (DefaultBaseNode K V)) (i : Nat) (n0 : DefaultBaseNode K V)
    (hi : i < heap.length)
    (hn0 : heap.getD i default = n0)
    (_hsz : 1 < n0.size) :
    (SplitOnHeap heap i).1.getD i default = n0 ∧
    ((SplitOnHeap heap i).1.getD i default).size = n0.size ∧
    ((SplitOnHeap heap i).1.getD i default).type = n0.type ∧
    ((SplitOnHeap heap i).1.getD i default).height = n0.height ∧
    ((SplitOnHeap heap i).1.getD i default).lowKey = n0.lowKey ∧
    ((SplitOnHeap heap i).1.getD i default).highKey = n0.highKey ∧
    (∀ j, j < n0.size →
      KeyAt ((SplitOnHeap heap i).1.getD i default) j = KeyAt n0 j ∧
      ValueAt ((SplitOnHeap heap i).1.getD i default) j = ValueAt n0 j) := by
  have key : (SplitOnHeap heap i).1.getD i default = n0 := by
    show ((heap ++ [Split (heap.getD i default)]).getD i default) = n0
    rw [List.getD_append _ _ _ _ hi, hn0]
  rw [key]
  exact ⟨rfl, rfl, rfl, rfl, rfl, rfl, fun j _ => ⟨rfl, rfl⟩⟩

/-- Concrete heap for the C8 witness: the receiver at index 0 and one other
node. -/
def heapSplitEx : List (DefaultBaseNode Int Int) :=
  [nSplitEx,
   { type := NodeType.LeafBase, height := 0, size := 1,
     lowKey := ⟨9, false⟩, highKey := ⟨20, true⟩,
     keys := [9], values := [90] }]

/-- Witness for C8: after splitting the node at heap index 0, the node read
back at index 0 is unchanged. -/
theorem c8_witness :
    (SplitOnHeap heapSplitEx 0).1.getD 0 default = nSplitEx ∧
    ((SplitOnHeap heapSplitEx 0).1.getD 0 default).size = nSplitEx.size :=
  ⟨(c8_split_frame heapSplitEx 0 nSplitEx (by decide) rfl (by decide)).1,
   (c8_split_frame heapSplitEx 0 nSplitEx (by decide) rfl (by decide)).2.1⟩

/-! ### C1 and C6: binary search on a base node -/

/-- Characterization of `Search` on a strictly sorted key array of positive
size: the result is in `[0, size)`, satisfies `key_at(i) ≤ key` unless it is
index 0, and dominates every index with that property. -/
theorem search_characterization {K V : Type} [LinearOrder K] [Inhabited K]
    (n : DefaultBaseNode K V) (key : K)
    (hsorted : List.Pairwise (· < ·) n.keys)
    (hwk : n.keys.length = n.size)
    (hpos : 1 ≤ n.size) :
    Search n key < n.size ∧
    (Search n key = 0 ∨ KeyAt n (Search n key) ≤ key) ∧
    (∀ j, j < n.size → (j = 0 ∨ KeyAt n j ≤ key) → j ≤ Search n key) := by
  have hS : Search n key = (n.keys.drop 1).findIdx (fun x => decide (key < x)) := by
    show 1 + (n.keys.drop 1).findIdx (fun x => decide (key < x)) - 1 =
      (n.keys.drop 1).findIdx (fun x => decide (key < x))
    omega
  have hlt : (n.keys.drop 1).length = n.size - 1 := by
    rw [List.length_drop, hwk]
  have hfle : (n.keys.drop 1).findIdx (fun x => decide (key < x)) ≤ (n.keys.drop 1).length :=
    List.findIdx_le_length _
  have hG1 : Search n key < n.size := by omega
  have hG2 : Search n key = 0 ∨ KeyAt n (Search n key) ≤ key := by
    rcases Nat.eq_zero_or_pos (Search n key) with h0 | hpos2
    · exact Or.inl h0
    · right
      have hi1 : Search n key - 1 < (n.keys.drop 1).findIdx (fun x => decide (key < x)) := by
        omega
      have hfalse := List.not_of_lt_findIdx hi1
      simp only [List.getElem_drop, decide_eq_false_iff_not, not_lt] at hfalse
      have heq : 1 + (Search n key - 1) = Search n key := by omega
      simp only [heq] at hfalse
      have hbs : Search n key < n.keys.length := by omega
      rw [KeyAt, List.getD_eq_getElem _ _ hbs]
      exact hfalse
  have hG3 : ∀ j, j < n.size → (j = 0 ∨ KeyAt n j ≤ key) → j ≤ Search n key := by
    intro j hj hPj
    by_contra hji
    push_neg at hji
    have hj1 : 1 ≤ j := by omega
    have hkj : KeyAt n j ≤ key := by
      rcases hPj with h0 | hle2
      · exact absurd h0 (by omega)
      · exact hle2
    have hiw : (n.keys.drop 1).findIdx (fun x => decide (key < x)) <
        (n.keys.drop 1).length := by omega
    have htrue := List.findIdx_getElem (w := hiw)
    simp only [List.getElem_drop, decide_eq_true_eq] at htrue
    have hb1 : 1 + (n.keys.drop 1).findIdx (fun x => decide (key < x)) < n.keys.length := by
      omega
    have hbj : j < n.keys.length := by omega
    have hij1 : 1 + (n.keys.drop 1).findIdx (fun x => decide (key < x)) ≤ j := by omega
    have hle3 : n.keys[1 + (n.keys.drop 1).findIdx (fun x => decide (key < x))] ≤
        n.keys[j] := by
      rcases Nat.eq_or_lt_of_le hij1 with heq2 | hlt2
      · simp only [heq2]; exact le_rfl
      · have hmono := List.pairwise_iff_get.mp hsorted ⟨_, hb1⟩ ⟨j, hbj⟩ hlt2
        simp only [List.get_eq_getElem] at hmono
        exact le_of_lt hmono
    have hkey2 : KeyAt n j = n.keys[j] := by
      rw [KeyAt, List.getD_eq_getElem _ _ hbj]
    have habs : key < key :=
      lt_of_lt_of_le (lt_of_lt_of_le htrue hle3) (hkey2 ▸ hkj)
    exact lt_irrefl _ habs
  exact ⟨hG1, hG2, hG3⟩

/-- **C1**: on a base node with strictly ascending keys, a key satisfying the
`KeyInNode` precondition and size at least 1, `Search(key)` returns the
largest index `i` with `key_at(i) ≤ key` (index 0 counting as always `≤ key`),
and the result lies in `[0, size)`. -/
theorem c1_search_lower_bound {K V : Type} [LinearOrder K] [Inhabited K]
    (n : DefaultBaseNode K V) (key : K)
    (hsorted : List.Pairwise (· < ·) n.keys)
    (hwk : n.keys.length = n.size)
    (hpos : 1 ≤ n.size)
    (_hin : KeyInNode n.hdr key = true) :
    Search n key < n.size ∧
    (Search n key = 0 ∨ KeyAt n (Search n key) ≤ key) ∧
    (∀ j, j < n.size → (j = 0 ∨ KeyAt n j ≤ key) → j ≤ Search n key) :=
  search_characterization n key hsorted hwk hpos

/-- Concrete base node (keys 1, 3, 5 over `Int`) for the search witnesses. -/
def nSearchEx : DefaultBaseNode Int Int :=
  { type := NodeType.LeafBase, height := 0, size := 3,
    lowKey := ⟨1, false⟩, highKey := ⟨9, false⟩,
    keys := [1, 3, 5], values := [10, 20, 30] }

/-- Witness for C1: searching 4 in the node with keys 1, 3, 5. -/
theorem c1_witness :
    Search nSearchEx (4 : Int) < nSearchEx.size ∧
    (Search nSearchEx (4 : Int) = 0 ∨ KeyAt nSearchEx (Search nSearchEx (4 : Int)) ≤ (4 : Int)) :=
  ⟨(c1_search_lower_bound nSearchEx 4 (by decide) rfl (by decide) (by decide)).1,
   (c1_search_lower_bound nSearchEx 4 (by decide) rfl (by decide) (by decide)).2.1⟩

/-- **C6**: on a base node with strictly ascending keys, a key satisfying the
`KeyInNode` precondition and size at least 1, `PointSearch(key)` returns the
index of the entry whose key equals the search key when one exists, and `-1`
when none does. -/
theorem c6_point_search {K V : Type} [LinearOrder K] [Inhabited K]
    (n : DefaultBaseNode K V) (key : K)
    (hsorted : List.Pairwise (· < ·) n.keys)
    (hwk : n.keys.length = n.size)
    (hpos : 1 ≤ n.size)
    (_hin : KeyInNode n.hdr key = true) :
    (∀ j, j < n.size → KeyAt n j = key → PointSearch n key = (j : Int)) ∧
    ((∀ j, j < n.size → KeyAt n j ≠ key) → PointSearch n key = -1) := by
  obtain ⟨hG1, hG2, hG3⟩ := search_characterization n key hsorted hwk hpos
  constructor
  · intro j hj hkey
    have hji : j ≤ Search n key := hG3 j hj (Or.inr (le_of_eq hkey))
    have hij : Search n key ≤ j := by
      by_contra hc
      push_neg at hc
      have h1 : 1 ≤ Search n key := by omega
      have hsr : KeyAt n (Search n key) ≤ key := by
        rcases hG2 with h0 | hle2
        · exact absurd h0 (by omega)
        · exact hle2
      have hbj : j < n.keys.length := by omega
      have hbs : Search n key < n.keys.length := by omega
      have hmono := List.pairwise_iff_get.mp hsorted ⟨j, hbj⟩ ⟨Search n key, hbs⟩ hc
      simp only [List.get_eq_getElem] at hmono
      have e1 : KeyAt n j = n.keys[j] := by
        rw [KeyAt, List.getD_eq_getElem _ _ hbj]
      have e2 : KeyAt n (Search n key) = n.keys[Search n key] := by
        rw [KeyAt, List.getD_eq_getElem _ _ hbs]
      have habs : key < key := by
        calc key = n.keys[j] := by rw [← e1, hkey]
        _ < n.keys[Search n key] := hmono
        _ = KeyAt n (Search n key) := e2.symm
        _ ≤ key := hsr
      exact lt_irrefl _ habs
    have heq : Search n key = j := le_antisymm hij hji
    have hkeyi : KeyAt n (Search n key) = key := by rw [heq]; exact hkey
    show (if KeyAt n (Search n key) = key then ((Search n key : Nat) : Int) else -1) = (j : Int)
    rw [if_pos hkeyi, heq]
  · intro hnone
    have hne : KeyAt n (Search n key) ≠ key := hnone _ hG1
    show (if KeyAt n (Search n key) = key then ((Search n key : Nat) : Int) else -1) = -1
    rw [if_neg hne]

/-- Witness for C6: in the node with keys 1, 3, 5, point-searching 3 finds
index 1 and point-searching 4 reports `-1`. -/
theorem c6_witness :
    PointSearch nSearchEx (3 : Int) = 1 ∧ PointSearch nSearchEx (4 : Int) = -1 :=
  ⟨(c6_point_search nSearchEx 3 (by decide) rfl (by decide) (by decide)).1 1
      (by decide) (by decide),
   (c6_point_search nSearchEx 4 (by decide) rfl (by decide) (by decide)).2 (by decide)⟩

end BwTreeModel
